import Mathlib

/-!
Verification development for the `generator/file.go` core of
protoc-gen-struct-transformer: a shallow embedding of the message-catalog
builder (`CollectAllMessages`), the per-file driver (`ProcessFile`), the
emission driver (`execTemplate`), the field prefix injection
(`prefixFields`) and the destination-path computation, together with
theorems about them.

Collaborators that live outside the analyzed file (the annotation reader,
the domain-struct parser `source.Parse`, the template engine, the
per-message resolver `processMessage`, the oneof post-pass and the debug
dump) are taken as explicit function parameters, so every theorem
quantifies over their possible results.  The few pieces declared in other
files of the repository (`Data.swap`, the `Field` record, the error
taxonomy) are modelled from the specification and marked as such.
-/

namespace StructTransformer

/-- One schema field of a message (gogo `FieldDescriptorProto`); only the
optional `Name` is inspected by the analyzed code. -/
structure FieldDescriptorProto where
  name : Option String
deriving DecidableEq, Repr

/-- One tagged-union (oneof) declaration of a message
(gogo `OneofDescriptorProto`); only its declared name is inspected. -/
structure OneofDescriptorProto where
  name : String
deriving DecidableEq, Repr

/-- A schema message (gogo `DescriptorProto`): name, field list, oneof
declarations, and — modelled from the spec — the optional message-level
target-struct-name annotation read by `extractStructNameOption`
(absent annotation degrades to the empty override). -/
structure DescriptorProto where
  name : String
  field : List FieldDescriptorProto
  oneofDecl : List OneofDescriptorProto
  goStructAnnot : Option String := none
deriving DecidableEq, Repr

/-- File-level custom options inspected by the analyzed code: the
models-file-path, repository-package and protobuf-package string options.
`none` models "option not present" (the annotation reader signals an
error for it). -/
structure FileOptions where
  goModelsFilePath : Option String := none
  goRepoPackage : Option String := none
  goProtobufPackage : Option String := none
deriving DecidableEq, Repr

/-- A schema file (gogo `FileDescriptorProto`): name, package, options
and message list. -/
structure FileDescriptorProto where
  name : String
  package : String
  options : FileOptions := {}
  messageType : List DescriptorProto := []
deriving DecidableEq, Repr

/-- The plugin request (gogo `plugin.CodeGeneratorRequest`): the list of
schema files. -/
structure CodeGeneratorRequest where
  protoFile : List FileDescriptorProto
deriving DecidableEq, Repr

/-- The error taxonomy used by the analyzed code.  Modelled from the
spec: the error values themselves (`ErrFileSkipped`, the `loggableError`
subtype, plain errors) are declared in other files of the repository;
the analyzed code only constructs `ErrFileSkipped`, tests whether an
error is a `loggableError`, and formats an error's message text. -/
inductive GenError where
  | errFileSkipped : GenError
  | loggable (msg : String) : GenError
  | fatal (msg : String) : GenError
deriving DecidableEq, Repr

/-- Whether an error is of the recoverable `loggableError` subtype
(the Go type assertion `err.(loggableError)`). -/
def GenError.isLoggable : GenError → Bool
  | .loggable _ => true
  | _ => false

/-- The error's message text (Go `%s` formatting of the error value). -/
def GenError.text : GenError → String
  | .errFileSkipped => "file skipped"
  | .loggable msg => msg
  | .fatal msg => msg

/-- Per-message transformation metadata (`messageOption` in the source):
target struct name override and the recorded oneof discriminator
(both default to the empty string, Go's zero value). -/
structure messageOption where
  targetName : String := ""
  oneofDecl : String := ""
deriving DecidableEq, Repr

/-- The message catalog (`MessageOptionList` in the source, a Go map
keyed by fully-qualified message name).  Modelled as an association
list with map-insert (replace-on-collision) semantics. -/
abbrev MessageOptionList := List (String × messageOption)

/-- Go map assignment `mol[k] = v`: replace the existing entry for `k`,
or append a fresh one. -/
def molInsert (mol : MessageOptionList) (k : String) (v : messageOption) :
    MessageOptionList :=
  if mol.any (fun p => p.1 == k) then
    mol.map (fun p => if p.1 == k then (k, v) else p)
  else mol ++ [(k, v)]

/-- The keys of a catalog. -/
def molKeys (mol : MessageOptionList) : List String :=
  mol.map Prod.fst

/-- Modelled from the spec: `extractStructNameOption` (declared in
another file of the repository) reads the optional message-level
target-struct-name annotation; an absent annotation degrades to the
empty override.  `CollectAllMessages` discards its error result. -/
def extractStructNameOption (m : DescriptorProto) : String :=
  m.goStructAnnot.getD ""

/-- The per-message body of `CollectAllMessages`: build the
`messageOption` recorded for one message — the target-name override,
plus the oneof discriminator exactly when the message has oneof
declarations, exactly two fields named `int64_value` and `string_value`,
and exactly one oneof group. -/
def collectMessageOption (m : DescriptorProto) : messageOption :=
  let structName := extractStructNameOption m
  let so : messageOption := { targetName := structName }
  if m.oneofDecl.length > 0 then
    let hasInt64Value := m.field.any (fun fd => fd.name == some "int64_value")
    let hasStringValue := m.field.any (fun fd => fd.name == some "string_value")
    let int64ToStringOneOf := m.field.length == 2 && hasInt64Value && hasStringValue
    if int64ToStringOneOf && m.oneofDecl.length == 1 then
      match m.oneofDecl with
      | o :: _ => { so with oneofDecl := o.name }
      | [] => so
    else so
  else so

/-- The fully-qualified key `package.MessageName` under which a message
is recorded. -/
def fqName (f : FileDescriptorProto) (m : DescriptorProto) : String :=
  f.package ++ "." ++ m.name

/-- Record all messages of one file into the catalog. -/
def collectFileInto (mol : MessageOptionList) (f : FileDescriptorProto) :
    MessageOptionList :=
  f.messageType.foldl
    (fun acc m => molInsert acc (fqName f m) (collectMessageOption m)) mol

/-- `CollectAllMessages`: scan every message of every file of the
request into the catalog; the Go function always returns a `nil` error,
modelled by the `none` second component. -/
def CollectAllMessages (req : CodeGeneratorRequest) :
    MessageOptionList × Option GenError :=
  (req.protoFile.foldl collectFileInto ([] : List (String × messageOption)), none)

/-- The reference enumeration of catalog entries: one pair per message
of every file, in request order. -/
def collectPairs (req : CodeGeneratorRequest) : List (String × messageOption) :=
  req.protoFile.flatMap
    (fun f => f.messageType.map (fun m => (fqName f m, collectMessageOption m)))

/-! ### Path computation (`filepath.Split`, `filepath.Join`, `filepath.Clean`,
`strings.Replace`), embedded over character lists. -/

/-- The base-name part of a path: the characters after the last slash. -/
def baseNameChars (cs : List Char) : List Char :=
  (cs.reverse.takeWhile (fun c => c ≠ '/')).reverse

/-- `filepath.Split`: directory part (with trailing slash kept) and file
name part. -/
def splitPath (s : String) : String × String :=
  let fn := baseNameChars s.data
  (⟨s.data.take (s.data.length - fn.length)⟩, ⟨fn⟩)

/-- Split a character list on slashes, keeping empty segments. -/
def splitSlash : List Char → List (List Char)
  | [] => [[]]
  | c :: rest =>
    if c = '/' then [] :: splitSlash rest
    else
      match splitSlash rest with
      | h :: t => (c :: h) :: t
      | [] => [[c]]

/-- Join segments with slashes (inverse of `splitSlash`). -/
def joinSlashChars : List (List Char) → List Char
  | [] => []
  | [x] => x
  | x :: rest => x ++ '/' :: joinSlashChars rest

/-- One step of `filepath.Clean`'s element processing: drop `.`,
backtrack on `..` (or keep it when nothing can be popped in a relative
path), push any other segment. -/
def cleanStep (rooted : Bool) (acc : List (List Char)) (c : List Char) :
    List (List Char) :=
  if c = ['.'] then acc
  else if c = ['.', '.'] then
    match acc.getLast? with
    | some l => if l = ['.', '.'] then (if rooted then acc else acc ++ [c])
                else acc.dropLast
    | none => if rooted then acc else [c]
  else acc ++ [c]

/-- Whether a path is rooted (starts with a slash). -/
def isRooted (cs : List Char) : Bool :=
  match cs with
  | [] => false
  | c :: _ => c = '/'

/-- `filepath.Clean` for slash-separated paths: collapse duplicate
slashes, resolve `.` and `..`, return `.` for an empty relative result. -/
def cleanChars (cs : List Char) : List Char :=
  let rooted := isRooted cs
  let comps := (splitSlash cs).filter (fun c => !c.isEmpty)
  let out := comps.foldl (cleanStep rooted) []
  if rooted then '/' :: joinSlashChars out
  else if out.isEmpty then ['.'] else joinSlashChars out

/-- `filepath.Join`: skip leading empty elements, join the rest with
slashes, and clean the result. -/
def goJoinChars (elems : List (List Char)) : List Char :=
  match elems.dropWhile (fun e => e.isEmpty) with
  | [] => []
  | l => cleanChars (joinSlashChars l)

/-- `strings.Replace(s, pat, rep, -1)`: replace every non-overlapping
occurrence of `pat` left to right, never rescanning replacement text.
The analyzed code only invokes it with the non-empty pattern `.proto`;
for an empty pattern this model returns the input unchanged. -/
def replaceAll (pat rep : List Char) : List Char → List Char
  | [] => []
  | c :: rest =>
    if pat.isPrefixOf (c :: rest) ∧ pat ≠ [] then
      rep ++ replaceAll pat rep (rest.drop (pat.length - 1))
    else c :: replaceAll pat rep rest
termination_by s => s.length
decreasing_by
  · simp only [List.length_cons, List.length_drop]
    omega
  · simp only [List.length_cons]
    omega

/-- The destination-path computation of `ProcessFile` (its last lines):
split the schema file name, optionally interpose the destination
package directory, join `dir, pn, filename, "__", name` and replace
every occurrence of `.proto` with `_transformer.go`. -/
def computePath (name packageName : String) (usePackageInPath : Bool) : String :=
  let dir := (splitPath name).1
  let filename := (splitPath name).2
  let pn := if usePackageInPath then packageName else ""
  ⟨replaceAll ".proto".data "_transformer.go".data
    (goJoinChars [dir.data, pn.data, filename.data, "__".data, name.data])⟩

/-! ### Field mappings, transform records, prefix injection and the
emission driver. -/

/-- A field mapping (`Field` in the repository, declared outside the
analyzed file).  Modelled from the spec: schema field name, domain field
name, the two conversion expressions, and the package-qualification
flag — the three attributes the analyzed code reads or writes keep the
source's names. -/
structure Field where
  ProtoName : String := ""
  GoName : String := ""
  ProtoToGoType : String := ""
  GoToProtoType : String := ""
  UsePackage : Bool := false
deriving DecidableEq, Repr

/-- `prefixFields`: for a non-empty helper-package alias, rewrite both
conversion expressions of every field marked `UsePackage` to
`alias.expression`; an empty alias leaves the list untouched.  The Go
function mutates the slice in place; the model returns the updated
list. -/
def prefixFields (fields : List Field) (pfx : String) : List Field :=
  if pfx = "" then fields
  else
    fields.map (fun f =>
      if f.UsePackage = false then f
      else { f with ProtoToGoType := pfx ++ "." ++ f.ProtoToGoType,
                    GoToProtoType := pfx ++ "." ++ f.GoToProtoType })

/-- A message transform record (`Data` in the repository, declared
outside the analyzed file): the attributes the analyzed code
constructs, plus the destination-side function/pointer labels whose Go
zero values fill the omitted literal fields. -/
structure Data where
  Src : String := ""
  Dst : String := ""
  SrcPref : String := ""
  DstPref : String := ""
  SrcFn : String := ""
  DstFn : String := ""
  SrcPointer : String := ""
  DstPointer : String := ""
  Fields : List Field := []
deriving DecidableEq, Repr

/-- Modelled from the spec: `Data.swap` (declared in another file of the
repository) inverts the four source/destination name and prefix
attribute pairs in place and leaves the field mappings untouched. -/
def Data.swap (d : Data) : Data :=
  { d with
    Src := d.Dst, Dst := d.Src,
    SrcPref := d.DstPref, DstPref := d.SrcPref,
    SrcFn := d.DstFn, DstFn := d.SrcFn,
    SrcPointer := d.DstPointer, DstPointer := d.SrcPointer }

/-- `execTemplate`: for each record, fetch the `messages` template
(`templateWithHelpers`, a collaborator whose result `mkT` is passed in),
render the record, swap it, render it again, and move on; any failure
aborts.  The Go function streams into a writer; the model returns the
text appended on success. -/
def execTemplate (mkT : Except GenError (Data → Except GenError String)) :
    List Data → Except GenError String
  | [] => .ok ""
  | d :: rest =>
    match mkT with
    | .error e => .error e
    | .ok t =>
      match t d with
      | .error e => .error e
      | .ok s1 =>
        match t d.swap with
        | .error e => .error e
        | .ok s2 =>
          match execTemplate mkT rest with
          | .error e => .error e
          | .ok srest => .ok (s1 ++ s2 ++ srest)

/-! ### The per-file driver `ProcessFile` and its helpers. -/

/-- Modelled from the spec: path absolutization (`filepath.Abs`, a
file-system collaborator that fails only when the working directory is
unavailable); modelled as the identity since no claim depends on the
absolute form. -/
def filepathAbs (p : String) : String := p

/-- Modelled from the spec: the annotation reader `getStringOption`
returns the declared string option or signals "not present". -/
def getStringOption (o : Option String) : Except GenError String :=
  match o with
  | some s => .ok s
  | none => .error (.fatal "option not found")

/-- `modelsPath`: the models-file path option, absolutized; a missing
annotation is converted into the distinguished `ErrFileSkipped`. -/
def modelsPath (o : FileOptions) : Except GenError String :=
  match getStringOption o.goModelsFilePath with
  | .error _ => .error .errFileSkipped
  | .ok optionPath => .ok (filepathAbs optionPath)

/-- The repository-package prefix: the file option, defaulting to
`repo1` when absent. -/
def repoPackageOf (o : FileOptions) : String :=
  match getStringOption o.goRepoPackage with
  | .ok s => s
  | .error _ => "repo1"

/-- The protobuf-package prefix: the file option, defaulting to `pb1`
when absent. -/
def protoPackageOf (o : FileOptions) : String :=
  match getStringOption o.goProtobufPackage with
  | .ok s => s
  | .error _ => "pb1"

/-- The generator version string (`version` package variable, set by the
build; `<dev>` by default). -/
def version : String := "<dev>"

/-- `output`: the generated-code header line. -/
def output : String :=
  "// Code generated by protoc-gen-struct-transformer, version: "
    ++ version ++ ". DO NOT EDIT.\n"

/-- `fileHeader`: header, source file/package comments, and the package
clause. -/
def fileHeader (srcFileName srcFilePackage dstPackage : String) : String :=
  output
    ++ "// source file: " ++ srcFileName ++ "\n"
    ++ "// source package: " ++ srcFilePackage ++ "\n"
    ++ "\npackage " ++ dstPackage ++ "\n"

/-- The result type of the per-message collaborator `processMessage`
(declared in another file of the repository): the text it writes to the
output stream, and either the resolved field mappings with the
destination struct name, or an error. -/
abbrev ProcessMessageFn (S : Type) :=
  DescriptorProto → MessageOptionList → S → Bool →
    String × Except GenError (List Field × String)

/-- The per-message loop of `ProcessFile`: for each message run
`processMessage`; a loggable error is downgraded to a `// ...` comment
in the output and the loop continues; any other error aborts the loop;
on success the fields are prefix-injected and a transform record with
the fixed source labels `Pb` and `*` is appended. -/
def processLoop {S : Type} (pm : ProcessMessageFn S)
    (messages : MessageOptionList) (structs : S) (debug : Bool)
    (helperPackageName protoPackage repoPackage : String) :
    List DescriptorProto → String × Except GenError (List Data)
  | [] => ("", .ok [])
  | m :: rest =>
    let r := pm m messages structs debug
    match r.2 with
    | .error e =>
      if e.isLoggable then
        let tail := processLoop pm messages structs debug
          helperPackageName protoPackage repoPackage rest
        (r.1 ++ "// " ++ e.text ++ "\n" ++ tail.1, tail.2)
      else (r.1, .error e)
    | .ok (fields, sno) =>
      let fields2 := prefixFields fields helperPackageName
      let d : Data :=
        { Src := m.name, SrcPref := protoPackage, SrcFn := "Pb",
          SrcPointer := "*", Dst := sno, DstPref := repoPackage,
          DstFn := sno, Fields := fields2 }
      let tail := processLoop pm messages structs debug
        helperPackageName protoPackage repoPackage rest
      (r.1 ++ tail.1,
       match tail.2 with
       | .ok ds => .ok (d :: ds)
       | .error e => .error e)

/-- `ProcessFile`: resolve the models path (skip signal when the
annotation is missing), parse the domain structs (collaborator
`parse`), build the header (plus the debug catalog dump `dump` when
requested), read the package-prefix options with their defaults, run
the per-message loop, run the emission driver and the oneof post-pass
(collaborator `oneofPass`), and return destination path and content.
Any error yields empty path and empty content alongside the error.  The
Go function also prints the file name to standard output, which is not
part of the returned content. -/
def ProcessFile {S : Type}
    (parse : String → Except GenError S)
    (pm : ProcessMessageFn S)
    (mkT : Except GenError (Data → Except GenError String))
    (oneofPass : List Data → Except GenError String)
    (dump : MessageOptionList → String)
    (f : FileDescriptorProto) (packageName helperPackageName : String)
    (messages : MessageOptionList) (debug usePackageInPath : Bool) :
    String × String × Option GenError :=
  match modelsPath f.options with
  | .error e => ("", "", some e)
  | .ok path =>
    match parse path with
    | .error e => ("", "", some e)
    | .ok structs =>
      let w0 := fileHeader f.name f.package packageName
      let w1 := if debug then w0 ++ dump messages else w0
      let repoPackage := repoPackageOf f.options
      let protoPackage := protoPackageOf f.options
      let loopRes := processLoop pm messages structs debug
        helperPackageName protoPackage repoPackage f.messageType
      match loopRes.2 with
      | .error e => ("", "", some e)
      | .ok data =>
        match execTemplate mkT data with
        | .error e => ("", "", some e)
        | .ok tText =>
          match oneofPass data with
          | .error e => ("", "", some e)
          | .ok oText =>
            (computePath f.name packageName usePackageInPath,
             w1 ++ loopRes.1 ++ tText ++ oText, none)

/-- The distinguished skip signal (`ErrFileSkipped`, declared in the
repository's errors file). -/
def ErrFileSkipped : GenError := .errFileSkipped

/-- The spec's destination path: the input file's directory and name
with the `.proto` extension replaced by `_transformer.go`, nested under
a directory named after the destination package exactly when
`usePackageInPath` is set.  This definition follows the spec's words,
to be compared with `computePath` from the source. -/
def specDestPath (name packageName : String) (usePackageInPath : Bool) : String :=
  let dir := (splitPath name).1
  let fn := (splitPath name).2
  let stem : String :=
    if ".proto".data.isSuffixOf fn.data then
      ⟨fn.data.take (fn.data.length - 6)⟩
    else fn
  dir ++ (if usePackageInPath then packageName ++ "/" else "")
    ++ stem ++ "_transformer.go"

/-! ### Concrete collaborators used by witnesses and counterexamples. -/

/-- A struct parser that always succeeds with a trivial catalog. -/
def parseU : String → Except GenError Unit := fun _ => .ok ()

/-- A per-message resolver that resolves every message with no fields
and destination name `<Name>Model`. -/
def pmOk : ProcessMessageFn Unit :=
  fun m _ _ _ => ("", .ok ([], m.name ++ "Model"))

/-- A template that renders a record as `Src>Dst;`. -/
def mkTOk : Except GenError (Data → Except GenError String) :=
  .ok (fun d => .ok (d.Src ++ ">" ++ d.Dst ++ ";"))

/-- A oneof post-pass that appends nothing. -/
def oneofOk : List Data → Except GenError String := fun _ => .ok ""

/-- A debug dump that prints nothing. -/
def dumpNone : MessageOptionList → String := fun _ => ""

/-- A minimal schema file carrying the models-path annotation. -/
def fileFoo : FileDescriptorProto :=
  { name := "foo.proto", package := "example",
    options := { goModelsFilePath := some "models/models.go" },
    messageType := [] }

/-! ## Helper lemmas -/

theorem isPrefixOf_append_cancel (a b c : List Char) :
    (a ++ b).isPrefixOf (a ++ c) = b.isPrefixOf c := by
  induction a with
  | nil => rfl
  | cons x xs ih => simp [List.isPrefixOf, ih]

theorem isPrefixOf_append_self (a c : List Char) :
    a.isPrefixOf (a ++ c) = true := by
  have h := isPrefixOf_append_cancel a [] c
  simp only [List.append_nil] at h
  rw [h]
  simp [List.isPrefixOf]

theorem zip_map_self {α : Type} (g : α → α) (l : List α) :
    ∀ p ∈ l.zip (l.map g), p.2 = g p.1 := by
  induction l with
  | nil => simp
  | cons x xs ih =>
    intro p hp
    simp only [List.map_cons, List.zip_cons_cons, List.mem_cons] at hp
    rcases hp with hp | hp
    · subst hp; rfl
    · exact ih _ hp

theorem zip_self_eq {α : Type} (l : List α) :
    ∀ p ∈ l.zip l, p.2 = p.1 := by
  induction l with
  | nil => simp
  | cons x xs ih =>
    intro p hp
    simp only [List.zip_cons_cons, List.mem_cons] at hp
    rcases hp with hp | hp
    · subst hp; rfl
    · exact ih _ hp

/-- Records produced by the per-message loop always carry the supplied
package prefixes and the fixed source labels. -/
theorem processLoop_record_shape {S : Type} (pm : ProcessMessageFn S)
    (mol : MessageOptionList) (structs : S) (dbg : Bool)
    (hp pp rp : String) :
    ∀ (msgs : List DescriptorProto) (ds : List Data),
      (processLoop pm mol structs dbg hp pp rp msgs).2 = .ok ds →
      ∀ d ∈ ds, d.SrcPref = pp ∧ d.DstPref = rp ∧ d.SrcFn = "Pb" ∧
        d.SrcPointer = "*" := by
  intro msgs
  induction msgs with
  | nil =>
    intro ds hds d hd
    simp only [processLoop, Except.ok.injEq] at hds
    subst hds
    cases hd
  | cons m rest ih =>
    intro ds hds d hd
    simp only [processLoop] at hds
    rcases hr : (pm m mol structs dbg).2 with e | fs
    · rw [hr] at hds
      by_cases hl : e.isLoggable = true
      · simp only [hl, if_true] at hds
        exact ih ds hds d hd
      · simp only [Bool.not_eq_true] at hl
        simp [hl] at hds
    · rw [hr] at hds
      rcases ht : (processLoop pm mol structs dbg hp pp rp rest).2 with e' | ds'
      · simp [ht] at hds
      · simp only [ht, Except.ok.injEq] at hds
        subst hds
        rcases List.mem_cons.mp hd with hd | hd
        · subst hd
          exact ⟨rfl, rfl, rfl, rfl⟩
        · exact ih ds' ht d hd

/-- `ProcessFile` computes its destination path with `computePath`
whenever it succeeds. -/
theorem processFile_path_on_success {S : Type}
    (parse : String → Except GenError S) (pm : ProcessMessageFn S)
    (mkT : Except GenError (Data → Except GenError String))
    (oneofPass : List Data → Except GenError String)
    (dump : MessageOptionList → String)
    (f : FileDescriptorProto) (pkg hp : String) (mol : MessageOptionList)
    (dbg upp : Bool)
    (h : (ProcessFile parse pm mkT oneofPass dump f pkg hp mol dbg upp).2.2
        = none) :
    (ProcessFile parse pm mkT oneofPass dump f pkg hp mol dbg upp).1
      = computePath f.name pkg upp := by
  rcases h1 : modelsPath f.options with e | path
  · simp [ProcessFile, h1] at h
  rcases h2 : parse path with e | structs
  · simp [ProcessFile, h1, h2] at h
  rcases h3 : (processLoop pm mol structs dbg hp (protoPackageOf f.options)
      (repoPackageOf f.options) f.messageType).2 with e | data
  · simp [ProcessFile, h1, h2, h3] at h
  rcases h4 : execTemplate mkT data with e | tText
  · simp [ProcessFile, h1, h2, h3, h4] at h
  rcases h5 : oneofPass data with e | oText
  · simp [ProcessFile, h1, h2, h3, h4, h5] at h
  simp [ProcessFile, h1, h2, h3, h4, h5]

theorem data_ne_nil_of_ne_empty (s : String) (h : s ≠ "") : s.data ≠ [] := by
  intro hd
  exact h (String.ext (by rw [hd]))

theorem splitPath_no_slash (s : String) (h : ∀ c ∈ s.data, c ≠ '/') :
    splitPath s = ("", s) := by
  have hfn : baseNameChars s.data = s.data := by
    unfold baseNameChars
    rw [List.takeWhile_eq_self_iff.mpr ?_, List.reverse_reverse]
    intro c hc
    simp only [decide_eq_true_eq]
    exact h c (List.mem_reverse.mp hc)
  unfold splitPath
  rw [hfn]
  simp only [Nat.sub_self, List.take_zero]

theorem splitSlash_no_slash (xs : List Char) (h : ∀ c ∈ xs, c ≠ '/') :
    splitSlash xs = [xs] := by
  induction xs with
  | nil => rfl
  | cons c cs ih =>
    have hc := h c (List.mem_cons_self _ _)
    have ih' := ih (fun x hx => h x (List.mem_cons_of_mem _ hx))
    rw [splitSlash, if_neg hc, ih']

theorem splitSlash_append (xs ys : List Char) (h : ∀ c ∈ xs, c ≠ '/') :
    splitSlash (xs ++ '/' :: ys) = xs :: splitSlash ys := by
  induction xs with
  | nil =>
    show splitSlash ('/' :: ys) = [] :: splitSlash ys
    rw [splitSlash, if_pos rfl]
  | cons c cs ih =>
    have hc := h c (List.mem_cons_self _ _)
    show splitSlash (c :: (cs ++ '/' :: ys)) = (c :: cs) :: splitSlash ys
    rw [splitSlash, if_neg hc, ih (fun x hx => h x (List.mem_cons_of_mem _ hx))]

theorem joinSlashChars_cons_cons (x y : List Char) (rest : List (List Char)) :
    joinSlashChars (x :: y :: rest) = x ++ '/' :: joinSlashChars (y :: rest) :=
  rfl

theorem splitSlash_joinSlash (segs : List (List Char)) (hne : segs ≠ [])
    (h : ∀ s ∈ segs, ∀ c ∈ s, c ≠ '/') :
    splitSlash (joinSlashChars segs) = segs := by
  induction segs with
  | nil => exact absurd rfl hne
  | cons s rest ih =>
    rcases rest with _ | ⟨s2, rest2⟩
    · exact splitSlash_no_slash s (h s (List.mem_cons_self _ _))
    · rw [joinSlashChars_cons_cons,
        splitSlash_append s _ (h s (List.mem_cons_self _ _)),
        ih (by simp) (fun x hx => h x (List.mem_cons_of_mem _ hx))]

theorem foldl_cleanStep (rooted : Bool) :
    ∀ (comps : List (List Char)) (acc : List (List Char)),
      (∀ s ∈ comps, s ≠ ['.'] ∧ s ≠ ['.', '.']) →
      comps.foldl (cleanStep rooted) acc = acc ++ comps := by
  intro comps
  induction comps with
  | nil => intro acc _; simp
  | cons s rest ih =>
    intro acc h
    have hs := h s (List.mem_cons_self _ _)
    have hstep : cleanStep rooted acc s = acc ++ [s] := by
      unfold cleanStep
      rw [if_neg hs.1, if_neg hs.2]
    simp only [List.foldl_cons, hstep]
    rw [ih (acc ++ [s]) (fun x hx => h x (List.mem_cons_of_mem _ hx))]
    simp

theorem cleanChars_plain (s0 : List Char) (rest : List (List Char))
    (hplain : ∀ s ∈ s0 :: rest,
      s ≠ [] ∧ s ≠ ['.'] ∧ s ≠ ['.', '.'] ∧ ∀ c ∈ s, c ≠ '/') :
    cleanChars (joinSlashChars (s0 :: rest)) = joinSlashChars (s0 :: rest) := by
  obtain ⟨h0ne, h0d, h0dd, h0s⟩ := hplain s0 (List.mem_cons_self _ _)
  have hsplit : splitSlash (joinSlashChars (s0 :: rest)) = s0 :: rest :=
    splitSlash_joinSlash _ (by simp) (fun s hs => (hplain s hs).2.2.2)
  have hrooted : isRooted (joinSlashChars (s0 :: rest)) = false := by
    obtain ⟨c, cs, hs0⟩ : ∃ c cs, s0 = c :: cs := by
      rcases s0 with _ | ⟨c, cs⟩
      · exact absurd rfl h0ne
      · exact ⟨_, _, rfl⟩
    have hc : c ≠ '/' := by
      refine h0s c ?_
      rw [hs0]
      exact List.mem_cons_self _ _
    have hj : ∃ t, joinSlashChars (s0 :: rest) = c :: t := by
      rcases rest with _ | ⟨s2, rest2⟩
      · exact ⟨cs, by rw [hs0]; rfl⟩
      · refine ⟨cs ++ '/' :: joinSlashChars (s2 :: rest2), ?_⟩
        rw [joinSlashChars_cons_cons, hs0]
        rfl
    obtain ⟨t, ht⟩ := hj
    rw [ht]
    simp [isRooted, hc]
  have hfilter : (s0 :: rest).filter (fun c => !c.isEmpty) = s0 :: rest := by
    rw [List.filter_eq_self]
    intro s hs
    have := (hplain s hs).1
    rcases s with _ | ⟨a, as⟩
    · exact absurd rfl this
    · rfl
  unfold cleanChars
  rw [hsplit, hrooted, hfilter]
  dsimp only
  rw [foldl_cleanStep false (s0 :: rest) []
      (fun s hs => ⟨(hplain s hs).2.1, (hplain s hs).2.2.1⟩)]
  simp

theorem replaceAll_nil_input (pat rep : List Char) :
    replaceAll pat rep [] = [] := by
  rw [replaceAll]

theorem replaceAll_no_dot (pat' rep : List Char) :
    ∀ (xs ys : List Char), (∀ c ∈ xs, c ≠ '.') →
      replaceAll ('.' :: pat') rep (xs ++ ys)
        = xs ++ replaceAll ('.' :: pat') rep ys := by
  intro xs
  induction xs with
  | nil => intro ys _; rfl
  | cons c cs ih =>
    intro ys h
    have hc := h c (List.mem_cons_self _ _)
    show replaceAll ('.' :: pat') rep (c :: (cs ++ ys))
      = c :: (cs ++ replaceAll ('.' :: pat') rep ys)
    rw [replaceAll, if_neg, ih ys (fun x hx => h x (List.mem_cons_of_mem _ hx))]
    rintro ⟨hpre, -⟩
    simp only [List.isPrefixOf, Bool.and_eq_true, beq_iff_eq] at hpre
    exact hc hpre.1.symm

theorem replaceAll_head_match (p : Char) (pat' rep ys : List Char) :
    replaceAll (p :: pat') rep ((p :: pat') ++ ys)
      = rep ++ replaceAll (p :: pat') rep ys := by
  show replaceAll (p :: pat') rep (p :: (pat' ++ ys)) = _
  rw [replaceAll, if_pos]
  · have hd : (pat' ++ ys).drop ((p :: pat').length - 1) = ys := by
      simp only [List.length_cons, Nat.add_sub_cancel]
      exact List.drop_left pat' ys
    rw [hd]
  · constructor
    · exact isPrefixOf_append_self (p :: pat') ys
    · simp

theorem replaceAll_proto_pattern (A B : List Char)
    (hA : ∀ c ∈ A, c ≠ '.') (hB : ∀ c ∈ B, c ≠ '.') :
    replaceAll ".proto".data "_transformer.go".data
        (A ++ (".proto".data ++ (B ++ ".proto".data)))
      = A ++ ("_transformer.go".data ++ (B ++ "_transformer.go".data)) := by
  have hpat : ".proto".data = '.' :: "proto".data := rfl
  rw [hpat]
  rw [replaceAll_no_dot _ _ A _ hA]
  rw [show ('.' :: "proto".data) ++ (B ++ '.' :: "proto".data)
      = ('.' :: "proto".data) ++ (B ++ (('.' :: "proto".data) ++ [])) by simp]
  rw [replaceAll_head_match]
  rw [replaceAll_no_dot _ _ B _ hB]
  rw [replaceAll_head_match]
  rw [replaceAll_nil_input]
  simp

theorem nd_facts (based : List Char) (hbc : ∀ c ∈ based, c ≠ '.' ∧ c ≠ '/') :
    (based ++ ".proto".data) ≠ [] ∧ (based ++ ".proto".data) ≠ ['.'] ∧
    (based ++ ".proto".data) ≠ ['.', '.'] ∧
    ∀ c ∈ based ++ ".proto".data, c ≠ '/' := by
  have h6 : (".proto".data).length = 6 := rfl
  refine ⟨by simp, ?_, ?_, ?_⟩
  · intro h
    have hl := congrArg List.length h
    rw [List.length_append, h6] at hl
    simp at hl
  · intro h
    have hl := congrArg List.length h
    rw [List.length_append, h6] at hl
    simp at hl
  · intro c hc
    rcases List.mem_append.mp hc with hc | hc
    · exact (hbc c hc).2
    · have hm : c ∈ ['.', 'p', 'r', 'o', 't', 'o'] := hc
      simp only [List.mem_cons, List.not_mem_nil, or_false] at hm
      rcases hm with rfl | rfl | rfl | rfl | rfl | rfl <;> decide

theorem pathCore_pkg (pkgd based : List Char) (hpkgne : pkgd ≠ [])
    (hpkgc : ∀ c ∈ pkgd, c ≠ '.' ∧ c ≠ '/')
    (hbc : ∀ c ∈ based, c ≠ '.' ∧ c ≠ '/') :
    replaceAll ".proto".data "_transformer.go".data
        (goJoinChars [[], pkgd, based ++ ".proto".data, "__".data,
          based ++ ".proto".data])
      = (pkgd ++ '/' :: based)
        ++ ("_transformer.go".data
          ++ (('/' :: '_' :: '_' :: '/' :: based)
            ++ "_transformer.go".data)) := by
  obtain ⟨hnd1, hnd2, hnd3, hnd4⟩ := nd_facts based hbc
  rcases pkgd with _ | ⟨p0, ps⟩
  · exact absurd rfl hpkgne
  have hjoin : goJoinChars [[], p0 :: ps, based ++ ".proto".data, "__".data,
        based ++ ".proto".data]
      = cleanChars (joinSlashChars [p0 :: ps, based ++ ".proto".data,
          "__".data, based ++ ".proto".data]) := by
    unfold goJoinChars
    rw [show List.dropWhile (fun e => e.isEmpty)
        [[], p0 :: ps, based ++ ".proto".data, "__".data,
          based ++ ".proto".data]
        = [p0 :: ps, based ++ ".proto".data, "__".data,
          based ++ ".proto".data] by simp [List.dropWhile]]
  have hplain : ∀ s ∈ (p0 :: ps) :: [based ++ ".proto".data, "__".data,
        based ++ ".proto".data],
      s ≠ [] ∧ s ≠ ['.'] ∧ s ≠ ['.', '.'] ∧ ∀ c ∈ s, c ≠ '/' := by
    intro s hs
    simp only [List.mem_cons, List.not_mem_nil, or_false] at hs
    rcases hs with rfl | rfl | rfl | rfl
    · refine ⟨by simp, ?_, ?_, fun c hc => (hpkgc c hc).2⟩
      · intro h
        exact ((hpkgc '.' (by rw [h]; exact List.mem_cons_self _ _)).1) rfl
      · intro h
        exact ((hpkgc '.' (by rw [h]; exact List.mem_cons_self _ _)).1) rfl
    · exact ⟨hnd1, hnd2, hnd3, hnd4⟩
    · exact ⟨by decide, by decide, by decide, by decide⟩
    · exact ⟨hnd1, hnd2, hnd3, hnd4⟩
  rw [hjoin, cleanChars_plain _ _ hplain]
  have hjs : joinSlashChars [p0 :: ps, based ++ ".proto".data, "__".data,
        based ++ ".proto".data]
      = ((p0 :: ps) ++ '/' :: based)
        ++ (".proto".data
          ++ (('/' :: '_' :: '_' :: '/' :: based) ++ ".proto".data)) := by
    show (p0 :: ps) ++ '/' :: ((based ++ ".proto".data)
        ++ '/' :: ("__".data ++ '/' :: (based ++ ".proto".data))) = _
    have h2 : ("__" : String).data = ['_', '_'] := rfl
    rw [h2]
    simp
  rw [hjs, replaceAll_proto_pattern]
  · intro c hc
    rcases List.mem_append.mp hc with hc | hc
    · exact (hpkgc c hc).1
    · rcases List.mem_cons.mp hc with rfl | hc
      · decide
      · exact (hbc c hc).1
  · intro c hc
    rcases List.mem_cons.mp hc with rfl | hc
    · decide
    rcases List.mem_cons.mp hc with rfl | hc
    · decide
    rcases List.mem_cons.mp hc with rfl | hc
    · decide
    rcases List.mem_cons.mp hc with rfl | hc
    · decide
    · exact (hbc c hc).1

theorem pathCore_nopkg (based : List Char) (hbne : based ≠ [])
    (hbc : ∀ c ∈ based, c ≠ '.' ∧ c ≠ '/') :
    replaceAll ".proto".data "_transformer.go".data
        (goJoinChars [[], [], based ++ ".proto".data, "__".data,
          based ++ ".proto".data])
      = based
        ++ ("_transformer.go".data
          ++ (('/' :: '_' :: '_' :: '/' :: based)
            ++ "_transformer.go".data)) := by
  obtain ⟨hnd1, hnd2, hnd3, hnd4⟩ := nd_facts based hbc
  rcases based with _ | ⟨b0, bs⟩
  · exact absurd rfl hbne
  have hjoin : goJoinChars [[], [], (b0 :: bs) ++ ".proto".data, "__".data,
        (b0 :: bs) ++ ".proto".data]
      = cleanChars (joinSlashChars [(b0 :: bs) ++ ".proto".data, "__".data,
          (b0 :: bs) ++ ".proto".data]) := by
    unfold goJoinChars
    rw [show List.dropWhile (fun e => e.isEmpty)
        [[], [], (b0 :: bs) ++ ".proto".data, "__".data,
          (b0 :: bs) ++ ".proto".data]
        = [(b0 :: bs) ++ ".proto".data, "__".data,
          (b0 :: bs) ++ ".proto".data] by simp [List.dropWhile]]
  have hplain : ∀ s ∈ ((b0 :: bs) ++ ".proto".data) :: ["__".data,
        (b0 :: bs) ++ ".proto".data],
      s ≠ [] ∧ s ≠ ['.'] ∧ s ≠ ['.', '.'] ∧ ∀ c ∈ s, c ≠ '/' := by
    intro s hs
    simp only [List.mem_cons, List.not_mem_nil, or_false] at hs
    rcases hs with rfl | rfl | rfl
    · exact ⟨hnd1, hnd2, hnd3, hnd4⟩
    · exact ⟨by decide, by decide, by decide, by decide⟩
    · exact ⟨hnd1, hnd2, hnd3, hnd4⟩
  rw [hjoin, cleanChars_plain _ _ hplain]
  have hjs : joinSlashChars [(b0 :: bs) ++ ".proto".data, "__".data,
        (b0 :: bs) ++ ".proto".data]
      = (b0 :: bs)
        ++ (".proto".data
          ++ (('/' :: '_' :: '_' :: '/' :: (b0 :: bs)) ++ ".proto".data)) := by
    show ((b0 :: bs) ++ ".proto".data)
        ++ '/' :: ("__".data ++ '/' :: ((b0 :: bs) ++ ".proto".data)) = _
    have h2 : ("__" : String).data = ['_', '_'] := rfl
    rw [h2]
    simp
  rw [hjs, replaceAll_proto_pattern]
  · intro c hc
    exact (hbc c hc).1
  · intro c hc
    rcases List.mem_cons.mp hc with rfl | hc
    · decide
    rcases List.mem_cons.mp hc with rfl | hc
    · decide
    rcases List.mem_cons.mp hc with rfl | hc
    · decide
    rcases List.mem_cons.mp hc with rfl | hc
    · decide
    · exact (hbc c hc).1

theorem computePath_flat (base pkg : String) (upp : Bool)
    (hb : base ≠ "") (hbc : ∀ c ∈ base.data, c ≠ '.' ∧ c ≠ '/')
    (hpkg : pkg ≠ "") (hpc : ∀ c ∈ pkg.data, c ≠ '.' ∧ c ≠ '/') :
    computePath (base ++ ".proto") pkg upp
      = (if upp then pkg ++ "/" else "") ++ base ++ "_transformer.go"
        ++ "/__/" ++ base ++ "_transformer.go" := by
  have hslash : ∀ c ∈ (base ++ ".proto").data, c ≠ '/' := by
    intro c hc
    rw [String.data_append] at hc
    rcases List.mem_append.mp hc with hc | hc
    · exact (hbc c hc).2
    · have hm : c ∈ ['.', 'p', 'r', 'o', 't', 'o'] := hc
      simp only [List.mem_cons, List.not_mem_nil, or_false] at hm
      rcases hm with rfl | rfl | rfl | rfl | rfl | rfl <;> decide
  have harg : computePath (base ++ ".proto") pkg upp
      = ⟨replaceAll ".proto".data "_transformer.go".data
          (goJoinChars [[], if upp then pkg.data else [],
            base.data ++ ".proto".data, "__".data,
            base.data ++ ".proto".data])⟩ := by
    unfold computePath
    rw [splitPath_no_slash _ hslash]
    cases upp <;> rfl
  rw [harg]
  have h0 : ("/" : String).data = ['/'] := rfl
  have h4 : ("/__/" : String).data = ['/', '_', '_', '/'] := rfl
  cases upp
  · rw [if_neg (by simp)]
    rw [pathCore_nopkg base.data (data_ne_nil_of_ne_empty base hb) hbc]
    refine String.ext ?_
    show _ = (("" ++ base ++ "_transformer.go" ++ "/__/" ++ base
      ++ "_transformer.go") : String).data
    simp only [String.data_append, h4]
    simp
  · rw [if_pos rfl]
    rw [pathCore_pkg pkg.data base.data (data_ne_nil_of_ne_empty pkg hpkg)
      hpc hbc]
    refine String.ext ?_
    show _ = ((pkg ++ "/" ++ base ++ "_transformer.go" ++ "/__/" ++ base
      ++ "_transformer.go") : String).data
    simp only [String.data_append, h4, h0]
    simp

/-! ## Claim theorems -/

/-- C3: a file whose options lack the models-file-path annotation is
skipped: `ProcessFile` returns the distinguished `ErrFileSkipped`
together with empty path and empty content. -/
theorem processFile_missing_models_path_skips {S : Type}
    (parse : String → Except GenError S) (pm : ProcessMessageFn S)
    (mkT : Except GenError (Data → Except GenError String))
    (oneofPass : List Data → Except GenError String)
    (dump : MessageOptionList → String)
    (f : FileDescriptorProto) (pkg hp : String) (mol : MessageOptionList)
    (dbg upp : Bool)
    (h : f.options.goModelsFilePath = none) :
    ProcessFile parse pm mkT oneofPass dump f pkg hp mol dbg upp
      = ("", "", some ErrFileSkipped) := by
  simp [ProcessFile, modelsPath, getStringOption, h, ErrFileSkipped]

/-- Witness for C3: a concrete file without the annotation is skipped. -/
theorem processFile_missing_models_path_skips_witness :
    ProcessFile parseU pmOk mkTOk oneofOk dumpNone
        { name := "bar.proto", package := "example" } "models" "hp" [] false false
      = ("", "", some ErrFileSkipped) :=
  processFile_missing_models_path_skips parseU pmOk mkTOk oneofOk dumpNone
    { name := "bar.proto", package := "example" } "models" "hp" [] false false rfl

/-- C5: with a non-empty helper-package alias, `prefixFields` rewrites
both conversion expressions of every `UsePackage` field to
`alias.original`; both results begin with the alias prefix, and when
the original did not already begin with it the prefix appears exactly
once (the result does not begin with it twice). -/
theorem prefixFields_qualifies_once (fields : List Field) (pfx : String)
    (f : Field) (hp : pfx ≠ "") (hf : f ∈ fields) (hu : f.UsePackage = true) :
    ∃ g ∈ prefixFields fields pfx,
      g.ProtoToGoType = pfx ++ "." ++ f.ProtoToGoType ∧
      g.GoToProtoType = pfx ++ "." ++ f.GoToProtoType ∧
      (pfx ++ ".").data.isPrefixOf g.ProtoToGoType.data = true ∧
      (pfx ++ ".").data.isPrefixOf g.GoToProtoType.data = true ∧
      ((pfx ++ ".").data.isPrefixOf f.ProtoToGoType.data = false →
        ((pfx ++ ".").data ++ (pfx ++ ".").data).isPrefixOf
          g.ProtoToGoType.data = false) ∧
      ((pfx ++ ".").data.isPrefixOf f.GoToProtoType.data = false →
        ((pfx ++ ".").data ++ (pfx ++ ".").data).isPrefixOf
          g.GoToProtoType.data = false) := by
  refine ⟨{ f with ProtoToGoType := pfx ++ "." ++ f.ProtoToGoType,
                   GoToProtoType := pfx ++ "." ++ f.GoToProtoType },
    ?_, ?_, ?_, ?_, ?_, ?_, ?_⟩
  · unfold prefixFields
    rw [if_neg hp]
    refine List.mem_map.mpr ⟨f, hf, ?_⟩
    rw [if_neg (by simp [hu])]
  · rfl
  · rfl
  · show (pfx ++ ".").data.isPrefixOf (pfx ++ "." ++ f.ProtoToGoType).data = true
    simp only [String.data_append]
    exact isPrefixOf_append_self _ _
  · show (pfx ++ ".").data.isPrefixOf (pfx ++ "." ++ f.GoToProtoType).data = true
    simp only [String.data_append]
    exact isPrefixOf_append_self _ _
  · intro h0
    show ((pfx ++ ".").data ++ (pfx ++ ".").data).isPrefixOf
        (pfx ++ "." ++ f.ProtoToGoType).data = false
    simp only [String.data_append] at h0 ⊢
    rw [isPrefixOf_append_cancel]
    exact h0
  · intro h0
    show ((pfx ++ ".").data ++ (pfx ++ ".").data).isPrefixOf
        (pfx ++ "." ++ f.GoToProtoType).data = false
    simp only [String.data_append] at h0 ⊢
    rw [isPrefixOf_append_cancel]
    exact h0

/-- Witness for C5 at a concrete field list and alias `helperpkg`. -/
theorem prefixFields_qualifies_once_witness :
    ∃ g ∈ prefixFields
        [{ ProtoName := "created_at", GoName := "CreatedAt",
           ProtoToGoType := "TimeToPb", GoToProtoType := "PbToTime",
           UsePackage := true }] "helperpkg",
      g.ProtoToGoType = "helperpkg" ++ "." ++ "TimeToPb" ∧
      g.GoToProtoType = "helperpkg" ++ "." ++ "PbToTime" ∧
      ("helperpkg" ++ ".").data.isPrefixOf g.ProtoToGoType.data = true ∧
      ("helperpkg" ++ ".").data.isPrefixOf g.GoToProtoType.data = true ∧
      (("helperpkg" ++ ".").data.isPrefixOf ("TimeToPb" : String).data = false →
        (("helperpkg" ++ ".").data ++ ("helperpkg" ++ ".").data).isPrefixOf
          g.ProtoToGoType.data = false) ∧
      (("helperpkg" ++ ".").data.isPrefixOf ("PbToTime" : String).data = false →
        (("helperpkg" ++ ".").data ++ ("helperpkg" ++ ".").data).isPrefixOf
          g.GoToProtoType.data = false) :=
  prefixFields_qualifies_once _ "helperpkg" _ (by decide) (List.mem_singleton.mpr rfl)
    rfl

/-- C6: `prefixFields` is a frame-preserving update: the length is
unchanged, an empty alias changes nothing, fields not marked
`UsePackage` are unchanged, and the name and flag attributes of every
field are unchanged. -/
theorem prefixFields_frame (fields : List Field) (pfx : String) :
    (prefixFields fields pfx).length = fields.length ∧
    (pfx = "" → prefixFields fields pfx = fields) ∧
    ∀ p ∈ fields.zip (prefixFields fields pfx),
      (p.1.UsePackage = false → p.2 = p.1) ∧
      p.2.ProtoName = p.1.ProtoName ∧ p.2.GoName = p.1.GoName ∧
      p.2.UsePackage = p.1.UsePackage := by
  by_cases hp : pfx = ""
  · refine ⟨by simp [prefixFields, hp], fun _ => by simp [prefixFields, hp], ?_⟩
    intro p hpmem
    have h2 : p.2 = p.1 := by
      have := zip_self_eq fields p
      simp only [prefixFields, hp, if_true] at hpmem
      exact this hpmem
    exact ⟨fun _ => h2, by rw [h2], by rw [h2], by rw [h2]⟩
  · have hmap : prefixFields fields pfx
        = fields.map (fun f =>
            if f.UsePackage = false then f
            else { f with ProtoToGoType := pfx ++ "." ++ f.ProtoToGoType,
                          GoToProtoType := pfx ++ "." ++ f.GoToProtoType }) := by
      simp [prefixFields, hp]
    refine ⟨by rw [hmap]; simp, fun h => absurd h hp, ?_⟩
    intro p hpmem
    rw [hmap] at hpmem
    have h2 := zip_map_self _ fields p hpmem
    by_cases hu : p.1.UsePackage = false
    · rw [h2, if_pos hu]
      exact ⟨fun _ => rfl, rfl, rfl, rfl⟩
    · rw [h2, if_neg hu]
      exact ⟨fun h => absurd h hu, rfl, rfl, rfl⟩

/-- Witness for C6 at a concrete two-field list. -/
theorem prefixFields_frame_witness :
    ((prefixFields [{ ProtoName := "a", UsePackage := false },
        { ProtoName := "b", UsePackage := true }] "pkg").length = 2 ∧
     ("pkg" = "" → prefixFields [{ ProtoName := "a", UsePackage := false },
        { ProtoName := "b", UsePackage := true }] "pkg"
          = [{ ProtoName := "a", UsePackage := false },
             { ProtoName := "b", UsePackage := true }]) ∧
     ∀ p ∈ ([{ ProtoName := "a", UsePackage := false },
        { ProtoName := "b", UsePackage := true }] : List Field).zip
          (prefixFields [{ ProtoName := "a", UsePackage := false },
            { ProtoName := "b", UsePackage := true }] "pkg"),
       (p.1.UsePackage = false → p.2 = p.1) ∧
       p.2.ProtoName = p.1.ProtoName ∧ p.2.GoName = p.1.GoName ∧
       p.2.UsePackage = p.1.UsePackage) :=
  prefixFields_frame _ "pkg"

/-- The rendering function wrapped by `mkTOk`. -/
def tRender : Data → Except GenError String :=
  fun d => .ok (d.Src ++ ">" ++ d.Dst ++ ";")

/-- A per-message resolver producing a loggable error for messages
named `A` and a fatal error for all others. -/
def pmErr : ProcessMessageFn Unit :=
  fun m _ _ _ =>
    if m.name = "A" then ("", .error (.loggable "field not found"))
    else ("", .error (.fatal "parse failed"))

/-- A message named `A`. -/
def msgA : DescriptorProto := { name := "A", field := [], oneofDecl := [] }

/-- A message named `B`. -/
def msgB : DescriptorProto := { name := "B", field := [], oneofDecl := [] }

/-- A schema file whose single message draws a fatal error from
`pmErr`. -/
def fileB : FileDescriptorProto :=
  { name := "b.proto", package := "pb",
    options := { goModelsFilePath := some "m.go" }, messageType := [msgB] }

/-- C7: when the template succeeds on every record and its swapped
form, `execTemplate` emits, record by record, the forward render
immediately followed by the render of the once-swapped record — the
output is exactly the concatenation of adjacent forward/reverse
pairs. -/
theorem execTemplate_renders_in_swapped_pairs
    (t : Data → Except GenError String) (out rout : Data → String)
    (data : List Data)
    (h1 : ∀ d ∈ data, t d = .ok (out d))
    (h2 : ∀ d ∈ data, t (Data.swap d) = .ok (rout d)) :
    execTemplate (.ok t) data
      = .ok ((data.map (fun d => out d ++ rout d)).foldr
          (fun a b => a ++ b) "") := by
  induction data with
  | nil => rfl
  | cons d rest ih =>
    have hd1 : t d = .ok (out d) := h1 d (List.mem_cons_self _ _)
    have hd2 : t d.swap = .ok (rout d) := h2 d (List.mem_cons_self _ _)
    have ih' := ih (fun x hx => h1 x (List.mem_cons_of_mem _ hx))
      (fun x hx => h2 x (List.mem_cons_of_mem _ hx))
    simp only [execTemplate, hd1, hd2, ih', List.map_cons, List.foldr_cons]

/-- Witness for C7: one concrete record rendered as an adjacent
forward/reverse pair. -/
theorem execTemplate_renders_in_swapped_pairs_witness :
    execTemplate (.ok tRender)
        [{ Src := "A", Dst := "AModel", Fields := [] }]
      = .ok (((([{ Src := "A", Dst := "AModel", Fields := [] }] :
            List Data).map
          (fun d => (d.Src ++ ">" ++ d.Dst ++ ";")
            ++ (d.Dst ++ ">" ++ d.Src ++ ";"))).foldr
          (fun a b => a ++ b) "")) :=
  execTemplate_renders_in_swapped_pairs tRender
    (fun d => d.Src ++ ">" ++ d.Dst ++ ";")
    (fun d => d.Dst ++ ">" ++ d.Src ++ ";") _
    (by intro d hd
        simp only [List.mem_singleton] at hd
        subst hd
        rfl)
    (by intro d hd
        simp only [List.mem_singleton] at hd
        subst hd
        rfl)

/-- C9: `ProcessFile` is deterministic — identical inputs and identical
collaborator results give identical destination paths and byte-identical
content. -/
theorem processFile_deterministic {S : Type}
    (parse parse' : String → Except GenError S) (pm pm' : ProcessMessageFn S)
    (mkT mkT' : Except GenError (Data → Except GenError String))
    (oneofPass oneofPass' : List Data → Except GenError String)
    (dump dump' : MessageOptionList → String)
    (f f' : FileDescriptorProto) (pkg pkg' hp hp' : String)
    (mol mol' : MessageOptionList) (dbg dbg' upp upp' : Bool)
    (h1 : parse = parse') (h2 : pm = pm') (h3 : mkT = mkT')
    (h4 : oneofPass = oneofPass') (h5 : dump = dump') (h6 : f = f')
    (h7 : pkg = pkg') (h8 : hp = hp') (h9 : mol = mol')
    (h10 : dbg = dbg') (h11 : upp = upp') :
    ProcessFile parse pm mkT oneofPass dump f pkg hp mol dbg upp
      = ProcessFile parse' pm' mkT' oneofPass' dump' f' pkg' hp' mol' dbg' upp' := by
  subst h1 h2 h3 h4 h5 h6 h7 h8 h9 h10 h11
  rfl

/-- Witness for C9 at fully concrete inputs. -/
theorem processFile_deterministic_witness :
    ProcessFile parseU pmOk mkTOk oneofOk dumpNone fileFoo "models" "hp"
        [] false false
      = ProcessFile parseU pmOk mkTOk oneofOk dumpNone fileFoo "models" "hp"
        [] false false :=
  processFile_deterministic parseU parseU pmOk pmOk mkTOk mkTOk oneofOk oneofOk
    dumpNone dumpNone fileFoo fileFoo "models" "models" "hp" "hp" [] [] false
    false false false rfl rfl rfl rfl rfl rfl rfl rfl rfl rfl rfl

/-- C10: when the repository-package option is absent every emitted
record carries the default destination prefix `repo1`, when the
protobuf-package option is absent every record carries the default
source prefix `pb1`, and every record carries source function label
`Pb` and source pointer marker `*`. -/
theorem processFile_default_prefixes {S : Type} (pm : ProcessMessageFn S)
    (mol : MessageOptionList) (structs : S) (dbg : Bool) (hp : String)
    (o : FileOptions) (msgs : List DescriptorProto) (ds : List Data)
    (h1 : o.goRepoPackage = none) (h2 : o.goProtobufPackage = none)
    (hds : (processLoop pm mol structs dbg hp (protoPackageOf o)
        (repoPackageOf o) msgs).2 = .ok ds) :
    ∀ d ∈ ds, d.DstPref = "repo1" ∧ d.SrcPref = "pb1" ∧ d.SrcFn = "Pb" ∧
      d.SrcPointer = "*" := by
  intro d hd
  have h := processLoop_record_shape pm mol structs dbg hp _ _ msgs ds hds d hd
  have hr : repoPackageOf o = "repo1" := by
    simp [repoPackageOf, getStringOption, h1]
  have hq : protoPackageOf o = "pb1" := by
    simp [protoPackageOf, getStringOption, h2]
  exact ⟨hr ▸ h.2.1, hq ▸ h.1, h.2.2.1, h.2.2.2⟩

/-- Witness for C10: one concrete record with both options absent. -/
theorem processFile_default_prefixes_witness :
    ({ Src := "A", SrcPref := "pb1", SrcFn := "Pb", SrcPointer := "*",
       Dst := "AModel", DstPref := "repo1", DstFn := "AModel",
       Fields := [] } : Data).DstPref = "repo1" ∧
    ({ Src := "A", SrcPref := "pb1", SrcFn := "Pb", SrcPointer := "*",
       Dst := "AModel", DstPref := "repo1", DstFn := "AModel",
       Fields := [] } : Data).SrcPref = "pb1" ∧
    ({ Src := "A", SrcPref := "pb1", SrcFn := "Pb", SrcPointer := "*",
       Dst := "AModel", DstPref := "repo1", DstFn := "AModel",
       Fields := [] } : Data).SrcFn = "Pb" ∧
    ({ Src := "A", SrcPref := "pb1", SrcFn := "Pb", SrcPointer := "*",
       Dst := "AModel", DstPref := "repo1", DstFn := "AModel",
       Fields := [] } : Data).SrcPointer = "*" :=
  processFile_default_prefixes pmOk [] () false "hp" {} [msgA] _ rfl rfl rfl
    _ (List.mem_singleton.mpr rfl)

/-- C4: a loggable per-message error is downgraded to a `// ...`
comment written in the message's place while the loop continues with
the remaining messages; a non-loggable error aborts the loop at once
and makes `ProcessFile` return that error with empty path and empty
content. -/
theorem processFile_error_policy {S : Type}
    (parse : String → Except GenError S) (pm : ProcessMessageFn S)
    (mkT : Except GenError (Data → Except GenError String))
    (oneofPass : List Data → Except GenError String)
    (dump : MessageOptionList → String)
    (f : FileDescriptorProto) (pkg hp pp rp : String) (mol : MessageOptionList)
    (dbg upp : Bool) (m mf : DescriptorProto) (rest restf : List DescriptorProto)
    (structs : S) (mp : String) (e ef : GenError)
    (hle : e.isLoggable = true) (hfe : ef.isLoggable = false)
    (hm : (pm m mol structs dbg).2 = .error e)
    (hmf : (pm mf mol structs dbg).2 = .error ef)
    (hopt : f.options.goModelsFilePath = some mp)
    (hparse : parse (filepathAbs mp) = .ok structs)
    (hmsgs : f.messageType = mf :: restf) :
    processLoop pm mol structs dbg hp pp rp (m :: rest)
      = ((pm m mol structs dbg).1 ++ "// " ++ e.text ++ "\n"
          ++ (processLoop pm mol structs dbg hp pp rp rest).1,
         (processLoop pm mol structs dbg hp pp rp rest).2)
    ∧ processLoop pm mol structs dbg hp pp rp (mf :: restf)
      = ((pm mf mol structs dbg).1, .error ef)
    ∧ ProcessFile parse pm mkT oneofPass dump f pkg hp mol dbg upp
      = ("", "", some ef) := by
  have hloop : ∀ pp' rp' : String,
      processLoop pm mol structs dbg hp pp' rp' (mf :: restf)
        = ((pm mf mol structs dbg).1, .error ef) := by
    intro pp' rp'
    simp only [processLoop]
    rw [hmf]
    simp [hfe]
  refine ⟨?_, hloop pp rp, ?_⟩
  · simp only [processLoop]
    rw [hm]
    simp [hle]
  · simp only [ProcessFile, modelsPath, getStringOption, hopt, hparse, hmsgs]
    rw [hloop (protoPackageOf f.options) (repoPackageOf f.options)]

/-- Witness for C4 at concrete messages drawing a loggable and a fatal
error. -/
theorem processFile_error_policy_witness :
    processLoop pmErr [] () false "hp" "pb1" "repo1" [msgA]
      = ((pmErr msgA [] () false).1 ++ "// "
          ++ (GenError.loggable "field not found").text ++ "\n"
          ++ (processLoop pmErr [] () false "hp" "pb1" "repo1" []).1,
         (processLoop pmErr [] () false "hp" "pb1" "repo1" []).2)
    ∧ processLoop pmErr [] () false "hp" "pb1" "repo1" [msgB]
      = ((pmErr msgB [] () false).1, .error (.fatal "parse failed"))
    ∧ ProcessFile parseU pmErr mkTOk oneofOk dumpNone fileB "models" "hp"
        [] false false
      = ("", "", some (.fatal "parse failed")) :=
  processFile_error_policy parseU pmErr mkTOk oneofOk dumpNone fileB
    "models" "hp" "pb1" "repo1" [] false false msgA msgB [] [] () "m.go"
    (.loggable "field not found") (.fatal "parse failed")
    rfl rfl rfl rfl rfl rfl rfl

/-- A message matching the recognized two-arm int64/string union
shape. -/
def msgVal : DescriptorProto :=
  { name := "V",
    field := [{ name := some "int64_value" }, { name := some "string_value" }],
    oneofDecl := [{ name := "value" }] }

/-- The eligibility test of `collectMessageOption`, characterized: the
boolean on the left is the exact condition computed by the source, the
proposition on the right is the claim's field-shape description. -/
theorem int64ToString_fields_iff (l : List FieldDescriptorProto) :
    ((l.length == 2 && l.any (fun fd => fd.name == some "int64_value")
        && l.any (fun fd => fd.name == some "string_value")) = true)
    ↔ (l.map FieldDescriptorProto.name
          = [some "int64_value", some "string_value"] ∨
       l.map FieldDescriptorProto.name
          = [some "string_value", some "int64_value"]) := by
  rcases l with _ | ⟨a, _ | ⟨b, _ | ⟨c, tl⟩⟩⟩
  · simp
  · simp
  · simp only [List.length_cons, List.length_nil, List.any_cons, List.any_nil,
      Bool.or_false, Bool.and_eq_true, Bool.or_eq_true, beq_iff_eq,
      List.map_cons, List.map_nil, List.cons.injEq, and_true]
    constructor
    · rintro ⟨⟨-, hi | hi⟩, hs | hs⟩
      · rw [hi] at hs
        simp at hs
      · exact Or.inl ⟨hi, hs⟩
      · exact Or.inr ⟨hs, hi⟩
      · rw [hi] at hs
        simp at hs
    · rintro (⟨ha, hb⟩ | ⟨ha, hb⟩)
      · exact ⟨⟨trivial, Or.inl ha⟩, Or.inr hb⟩
      · exact ⟨⟨trivial, Or.inr hb⟩, Or.inl ha⟩
  · simp only [List.length_cons, List.map_cons, Bool.and_eq_true, beq_iff_eq]
    constructor
    · rintro ⟨⟨h2, -⟩, -⟩
      omega
    · rintro (h | h) <;> simp at h

/-- C1: under well-formed descriptors (non-empty declared oneof names),
`collectMessageOption` records a non-empty discriminator for a message
exactly when the message has exactly one oneof group, exactly two
fields, and those fields are named `int64_value` and `string_value` in
either order; any other shape records the empty string. -/
theorem collectMessageOption_discriminator_iff (m : DescriptorProto)
    (h : ∀ o ∈ m.oneofDecl, o.name ≠ "") :
    (collectMessageOption m).oneofDecl ≠ "" ↔
      (m.oneofDecl.length = 1 ∧ m.field.length = 2 ∧
        (m.field.map FieldDescriptorProto.name
            = [some "int64_value", some "string_value"] ∨
         m.field.map FieldDescriptorProto.name
            = [some "string_value", some "int64_value"])) := by
  rcases ho : m.oneofDecl with _ | ⟨o, os⟩
  · simp [collectMessageOption, ho]
  rcases os with _ | ⟨o2, os2⟩
  · by_cases hc : (m.field.length == 2
        && m.field.any (fun fd => fd.name == some "int64_value")
        && m.field.any (fun fd => fd.name == some "string_value")) = true
    · have hname : o.name ≠ "" := h o (by rw [ho]; exact List.mem_cons_self _ _)
      have hshape := (int64ToString_fields_iff m.field).mp hc
      have hlen : m.field.length = 2 := by
        rcases hshape with hs | hs <;>
          · have := congrArg List.length hs
            simpa using this
      refine iff_of_true ?_ ⟨rfl, hlen, hshape⟩
      simp only [collectMessageOption, ho, hc]
      simpa using hname
    · have hshape : ¬ (m.field.map FieldDescriptorProto.name
            = [some "int64_value", some "string_value"] ∨
          m.field.map FieldDescriptorProto.name
            = [some "string_value", some "int64_value"]) :=
        fun hs => hc ((int64ToString_fields_iff m.field).mpr hs)
      refine iff_of_false ?_ (fun hr => hshape hr.2.2)
      simp only [Bool.not_eq_true] at hc
      simp [collectMessageOption, ho, hc]
  · refine iff_of_false ?_ ?_
    · simp [collectMessageOption, ho]
    · rintro ⟨h1, -, -⟩
      simp at h1

/-- Witness for C1 at the recognized concrete shape. -/
theorem collectMessageOption_discriminator_iff_witness :
    (∀ o ∈ msgVal.oneofDecl, o.name ≠ "") ∧
    ((collectMessageOption msgVal).oneofDecl ≠ "" ↔
      (msgVal.oneofDecl.length = 1 ∧ msgVal.field.length = 2 ∧
        (msgVal.field.map FieldDescriptorProto.name
            = [some "int64_value", some "string_value"] ∨
         msgVal.field.map FieldDescriptorProto.name
            = [some "string_value", some "int64_value"]))) :=
  ⟨by decide, collectMessageOption_discriminator_iff msgVal (by decide)⟩

/-- A two-file request with distinct fully-qualified names. -/
def reqTwo : CodeGeneratorRequest :=
  { protoFile :=
      [{ name := "a.proto", package := "pa",
         messageType := [{ name := "A", field := [], oneofDecl := [] },
                         { name := "B", field := [], oneofDecl := [] }] },
       { name := "b.proto", package := "pb",
         messageType := [{ name := "A", field := [], oneofDecl := [] }] }] }

theorem molInsert_of_not_mem (mol : MessageOptionList) (k : String)
    (v : messageOption) (h : k ∉ molKeys mol) :
    molInsert mol k v = mol ++ [(k, v)] := by
  unfold molInsert
  rw [if_neg]
  simp only [List.any_eq_true, beq_iff_eq, not_exists]
  intro p
  rintro ⟨hp, hk⟩
  exact h (List.mem_map.mpr ⟨p, hp, hk⟩)

theorem collectFileInto_fold (f : FileDescriptorProto) :
    ∀ (msgs : List DescriptorProto) (mol : MessageOptionList),
      (∀ m ∈ msgs, fqName f m ∉ molKeys mol) →
      (msgs.map (fun m => fqName f m)).Nodup →
      msgs.foldl
          (fun acc m => molInsert acc (fqName f m) (collectMessageOption m)) mol
        = mol ++ msgs.map (fun m => (fqName f m, collectMessageOption m)) := by
  intro msgs
  induction msgs with
  | nil => intro mol _ _; simp
  | cons m rest ih =>
    intro mol hmem hnd
    simp only [List.map_cons, List.nodup_cons] at hnd
    simp only [List.foldl_cons, List.map_cons]
    rw [molInsert_of_not_mem _ _ _ (hmem m (List.mem_cons_self _ _))]
    rw [ih (mol ++ [(fqName f m, collectMessageOption m)]) ?_ hnd.2]
    · simp
    · intro m' hm'
      simp only [molKeys, List.map_append, List.map_cons, List.map_nil,
        List.mem_append, List.mem_singleton, not_or]
      refine ⟨?_, ?_⟩
      · exact fun hc => hmem m' (List.mem_cons_of_mem _ hm')
          (by simpa [molKeys] using hc)
      · intro hc
        exact hnd.1 (hc ▸ List.mem_map_of_mem (fun x => fqName f x) hm')

/-- The fully-qualified keys contributed by one file. -/
def fileKeys (f : FileDescriptorProto) : List String :=
  f.messageType.map (fun m => fqName f m)

theorem collect_files_fold :
    ∀ (files : List FileDescriptorProto) (mol : MessageOptionList),
      (∀ k ∈ files.flatMap fileKeys, k ∉ molKeys mol) →
      (files.flatMap fileKeys).Nodup →
      files.foldl collectFileInto mol
        = mol ++ files.flatMap
            (fun f => f.messageType.map
              (fun m => (fqName f m, collectMessageOption m))) := by
  intro files
  induction files with
  | nil => intro mol _ _; simp
  | cons f rest ih =>
    intro mol hmem hnd
    simp only [List.flatMap_cons] at hmem hnd
    rw [List.nodup_append] at hnd
    obtain ⟨hnd1, hnd2, hdisj⟩ := hnd
    simp only [List.foldl_cons, List.flatMap_cons]
    have hfile : collectFileInto mol f
        = mol ++ f.messageType.map
            (fun m => (fqName f m, collectMessageOption m)) := by
      unfold collectFileInto
      exact collectFileInto_fold f f.messageType mol
        (fun m hm => hmem _ (List.mem_append_left _
          (List.mem_map_of_mem _ hm)))
        hnd1
    rw [hfile, ih (mol ++ f.messageType.map
        (fun m => (fqName f m, collectMessageOption m))) ?_ hnd2]
    · simp
    · intro k hk
      simp only [molKeys, List.map_append, List.mem_append, not_or]
      refine ⟨fun hc => hmem k (List.mem_append_right _ hk)
        (by simpa [molKeys] using hc), ?_⟩
      intro hc
      simp only [List.map_map] at hc
      have hc' : k ∈ fileKeys f := by
        simpa [fileKeys, Function.comp] using hc
      exact hdisj hc' hk

/-- C8: the catalog built by `CollectAllMessages` contains exactly one
entry for every message of every file of the request — keyed by
`package.MessageName` — whenever those fully-qualified names are
distinct, and the function never returns an error. -/
theorem collectAllMessages_total_catalog (req : CodeGeneratorRequest)
    (h : ((collectPairs req).map Prod.fst).Nodup) :
    (CollectAllMessages req).2 = none ∧
    (CollectAllMessages req).1 = collectPairs req ∧
    ∀ f ∈ req.protoFile, ∀ m ∈ f.messageType,
      (fqName f m, collectMessageOption m) ∈ (CollectAllMessages req).1 := by
  have hkeys : (collectPairs req).map Prod.fst
      = req.protoFile.flatMap fileKeys := by
    simp only [collectPairs, List.map_flatMap, List.map_map]
    rfl
  rw [hkeys] at h
  have hmain : (CollectAllMessages req).1 = collectPairs req := by
    show req.protoFile.foldl collectFileInto [] = collectPairs req
    rw [collect_files_fold req.protoFile [] (by simp [molKeys]) h]
    simp [collectPairs]
  refine ⟨rfl, hmain, ?_⟩
  intro f hf m hm
  rw [hmain]
  exact List.mem_flatMap.mpr ⟨f, hf, List.mem_map_of_mem _ hm⟩

/-- Witness for C8 at a concrete two-file request. -/
theorem collectAllMessages_total_catalog_witness :
    (CollectAllMessages reqTwo).2 = none ∧
    (CollectAllMessages reqTwo).1 = collectPairs reqTwo ∧
    ∀ f ∈ reqTwo.protoFile, ∀ m ∈ f.messageType,
      (fqName f m, collectMessageOption m) ∈ (CollectAllMessages reqTwo).1 :=
  collectAllMessages_total_catalog reqTwo (by decide)

/-- C2 counterexample: on the concrete file `foo.proto` the spec's path
(extension replacement, `foo_transformer.go`) differs from the path
`ProcessFile` actually returns
(`foo_transformer.go/__/foo_transformer.go`). -/
theorem processFile_path_spec_counterexample :
    (ProcessFile parseU pmOk mkTOk oneofOk dumpNone fileFoo "models" "hp"
        [] false false).2.2 = none
    ∧ specDestPath fileFoo.name "models" false = "foo_transformer.go"
    ∧ (ProcessFile parseU pmOk mkTOk oneofOk dumpNone fileFoo "models" "hp"
        [] false false).1
      = "foo_transformer.go/__/foo_transformer.go"
    ∧ (ProcessFile parseU pmOk mkTOk oneofOk dumpNone fileFoo "models" "hp"
        [] false false).1
      ≠ specDestPath fileFoo.name "models" false := by
  have hsucc : (ProcessFile parseU pmOk mkTOk oneofOk dumpNone fileFoo "models"
      "hp" [] false false).2.2 = none := by decide
  have hname : fileFoo.name = "foo" ++ ".proto" := by decide
  have hp : (ProcessFile parseU pmOk mkTOk oneofOk dumpNone fileFoo "models"
      "hp" [] false false).1 = computePath fileFoo.name "models" false :=
    processFile_path_on_success _ _ _ _ _ _ _ _ _ _ _ hsucc
  have hc : computePath fileFoo.name "models" false
      = "foo_transformer.go/__/foo_transformer.go" := by
    rw [hname, computePath_flat "foo" "models" false (by decide) (by decide)
      (by decide) (by decide)]
    decide
  refine ⟨hsucc, by decide, hp.trans hc, ?_⟩
  rw [hp.trans hc]
  decide

/-- C2 amended: for a schema file named `base.proto` (with `base` and
the destination package free of dots and slashes), a successful
`ProcessFile` returns not the plain extension-replaced path but
`[pkg/]base_transformer.go/__/base_transformer.go` — the join of the
directory, the optional package directory, the file name, a literal
`__` segment and the full file name again, with every occurrence of
`.proto` replaced by `_transformer.go`; the package directory appears
exactly when `usePackageInPath` is set. -/
theorem processFile_path_amended {S : Type}
    (parse : String → Except GenError S) (pm : ProcessMessageFn S)
    (mkT : Except GenError (Data → Except GenError String))
    (oneofPass : List Data → Except GenError String)
    (dump : MessageOptionList → String)
    (f : FileDescriptorProto) (pkg hp : String) (mol : MessageOptionList)
    (dbg upp : Bool) (base : String)
    (hname : f.name = base ++ ".proto")
    (hb : base ≠ "")
    (hbc : ∀ c ∈ base.data, c ≠ '.' ∧ c ≠ '/')
    (hpkg : pkg ≠ "")
    (hpc : ∀ c ∈ pkg.data, c ≠ '.' ∧ c ≠ '/')
    (hsucc : (ProcessFile parse pm mkT oneofPass dump
        f pkg hp mol dbg upp).2.2 = none) :
    (ProcessFile parse pm mkT oneofPass dump f pkg hp mol dbg upp).1
      = (if upp then pkg ++ "/" else "") ++ base ++ "_transformer.go"
        ++ "/__/" ++ base ++ "_transformer.go" := by
  rw [processFile_path_on_success parse pm mkT oneofPass dump f pkg hp mol
    dbg upp hsucc, hname]
  exact computePath_flat base pkg upp hb hbc hpkg hpc

/-- Witness for the amended C2 at the concrete file `foo.proto` with
package-in-path enabled. -/
theorem processFile_path_amended_witness :
    (ProcessFile parseU pmOk mkTOk oneofOk dumpNone fileFoo "models" "hp"
        [] false true).1
      = (if true then "models" ++ "/" else "") ++ "foo" ++ "_transformer.go"
        ++ "/__/" ++ "foo" ++ "_transformer.go" :=
  processFile_path_amended parseU pmOk mkTOk oneofOk dumpNone fileFoo
    "models" "hp" [] false true "foo" (by decide) (by decide) (by decide)
    (by decide) (by decide) (by decide)

end StructTransformer
